import Mathlib

/-!
Verification of the timetable extraction engine of `src/app.py`
(student-timetable-app).

Shallow embedding conventions:
* Python strings are `List Char`; `str.replace('\n','')` before regex search
  is `stripNl`; `str.lower()` is `lowerStr` (ASCII, all constants here are
  ASCII); `str.strip()` is `pyStrip` over Python's whitespace class.
* Word x-coordinates (floats in PyMuPDF) are modelled as `Int`; the code only
  compares them with `<` against integer column bounds, and every claim uses
  integer coordinates.
* The regex `CLASS_PATTERN = ([A-Z0-9]+)-([A-Z0-9]+)\((\d+)\)-([A-Z/]+)\s*\{(.*?)\}`
  is embedded as a maximal-munch matcher `matchAt` plus the leftmost-offset
  scan `classSearch` (Python `re.search`).  Maximal munch is exact for this
  pattern: each greedy `+`/`*` class is immediately followed by a literal
  character outside that class ('-' after [A-Z0-9], '(' after [A-Z0-9],
  ')' after \d, '{' after \s which follows [A-Z/]), so a shorter munch always
  fails the following literal and the regex engine never backtracks into a
  successful shorter alternative; the lazy `(.*?)\}` takes the shortest
  stretch of non-newline, non-'}' characters up to the first '}'.
-/

/-- Character class `[A-Z0-9]` (course code / section). -/
def isUpperAlnum (c : Char) : Bool :=
  ('A' ≤ c && c ≤ 'Z') || ('0' ≤ c && c ≤ '9')

/-- Character class `\d`. -/
def isDigitCh (c : Char) : Bool :=
  '0' ≤ c && c ≤ '9'

/-- Character class `[A-Z/]` (faculty initials). -/
def isFacultyCh (c : Char) : Bool :=
  ('A' ≤ c && c ≤ 'Z') || c = '/'

/-- Python `\s` (ASCII): space, tab, newline, carriage return, form feed,
vertical tab. -/
def isSpaceCh (c : Char) : Bool :=
  c = ' ' || c = '\t' || c = '\n' || c = '\r' || c = '\x0b' || c = '\x0c'

/-- Characters the lazy `.` of `(.*?)` may consume before the closing brace:
anything except `}` and (since `re.DOTALL` is not set) `\n`. -/
def isVenueCh (c : Char) : Bool :=
  !(c = '}') && !(c = '\n')

/-- The five captured groups of `CLASS_PATTERN`, as raw substrings. -/
structure ClassMatch where
  code : List Char
  sec : List Char
  sess : List Char
  fac : List Char
  ven : List Char
deriving DecidableEq, Repr

/-- Greedy `class+`: the maximal nonempty prefix of characters satisfying
`p`, together with the remainder; `none` when the first character already
fails `p` (the `+` needs at least one character). -/
def munch (p : Char → Bool) (s : List Char) :
    Option (List Char × List Char) :=
  if (s.takeWhile p).isEmpty then none
  else some (s.takeWhile p, s.dropWhile p)

/-- Consume one expected literal character. -/
def expectCh (c : Char) : List Char → Option (List Char)
  | d :: r => if d = c then some r else none
  | [] => none

/-- Attempt to match `CLASS_PATTERN` anchored at the head of `s`
(the body of one offset attempt of `re.search`).  Returns the groups and the
unconsumed remainder.  Reading of the pattern, piece by piece:
`([A-Z0-9]+)` then `-`; `([A-Z0-9]+)` then `\(`; `(\d+)` then `\)`; `-`;
`([A-Z/]+)`; `\s*` then `\{`; and the lazy `(.*?)\}` as the shortest
stretch of venue characters (anything but `}` and `\n`) up to the first
`}`. -/
def matchAt (s : List Char) : Option (ClassMatch × List Char) := do
  let (g1, r1) ← munch isUpperAlnum s
  let r2 ← expectCh '-' r1
  let (g2, r3) ← munch isUpperAlnum r2
  let r4 ← expectCh '(' r3
  let (g3, r5) ← munch isDigitCh r4
  let r6 ← expectCh ')' r5
  let r7 ← expectCh '-' r6
  let (g4, r8) ← munch isFacultyCh r7
  let r9 ← expectCh '{' (r8.dropWhile isSpaceCh)
  let r10 ← expectCh '}' (r9.dropWhile isVenueCh)
  pure (⟨g1, g2, g3, g4, r9.takeWhile isVenueCh⟩, r10)

/-- `re.search(CLASS_PATTERN, s)`: try each start offset left to right and
return the groups of the first offset at which the pattern matches
(`app.py` line 94). -/
def classSearch : List Char → Option ClassMatch
  | [] => none
  | s@(_ :: rest) =>
    match matchAt s with
    | some (m, _) => some m
    | none => classSearch rest

/-- `word_text.replace('\n', '')` (`app.py` line 94). -/
def stripNl (s : List Char) : List Char :=
  s.filter (fun c => !(c = '\n'))

/-- `str.replace('\n', ' ')` (`app.py` line 112). -/
def nlToSpace (s : List Char) : List Char :=
  s.map (fun c => if c = '\n' then ' ' else c)

/-- Python `str.strip()`: drop leading and trailing whitespace
(`app.py` line 117, `venue.strip()`). -/
def pyStrip (s : List Char) : List Char :=
  ((s.dropWhile isSpaceCh).reverse.dropWhile isSpaceCh).reverse

/-- ASCII `str.lower()`. -/
def lowerStr (s : List Char) : List Char :=
  s.map Char.toLower

/-- Python substring test `needle in hay`. -/
def containsSub (needle hay : List Char) : Bool :=
  (List.range (hay.length + 1)).any (fun i => needle.isPrefixOf (hay.drop i))

/-- `int(session)` on a digit string. -/
def natOfDigits (s : List Char) : Nat :=
  s.foldl (fun n c => 10 * n + (c.toNat - '0'.toNat)) 0

/-!
The Strategy-B pipeline of `parse_timetable_pdf` (`app.py` lines 53-128).
A positioned word is modelled by its left x-coordinate `x0` and its text;
the code destructures `y0, x1, y1` as well but never uses them, and pages
are flattened into one word sequence (the per-page loop only concatenates).
-/

/-- One positioned word from `page.get_text("words")`. -/
structure Word where
  x0 : Int
  text : List Char
deriving DecidableEq, Repr

/-- One catalog row: `Abbriviation` and `Course Name` columns of `course_df`
(the only columns `parse_timetable_pdf` reads). -/
structure CatEntry where
  abbr : List Char
  name : List Char
deriving DecidableEq, Repr

/-- One emitted class record (`app.py` lines 109-119). -/
structure Rec where
  day : List Char
  time : List Char
  courseName : List Char
  abbr : List Char
  sec : List Char
  session : Nat
  faculty : List Char
  venue : List Char
  key : List Char
deriving DecidableEq, Repr

/-- The column-bounds table `time_slots` (`app.py` lines 64-72). -/
def time_slots : List (Int × Int × List Char) :=
  [ (130, 230, "9:30-10:45 am".toList),
    (250, 350, "11:00 am-12:15 pm".toList),
    (370, 480, "12:30 - 01:45 pm".toList),
    (500, 600, "02:30 - 3:45 pm".toList),
    (620, 720, "4:00-5:15 pm".toList),
    (740, 840, "5:45-7:00 pm".toList),
    (860, 960, "7:15-8:30 pm".toList) ]

/-- The fixed weekday abbreviations (`app.py` line 76). -/
def days : List (List Char) :=
  [ "Mon".toList, "Tue".toList, "Wed".toList, "Thu".toList,
    "Fri".toList, "Sat".toList, "Sun".toList ]

/-- Day-update loop (`app.py` lines 88-91): scan `days` in order, set
`current_day` to the first abbreviation occurring case-insensitively in the
word's text; keep the old day when none occurs. -/
def updateDay (cur : List Char) (wtext : List Char) : List Char :=
  match days.find? (fun d => containsSub (lowerStr d) (lowerStr wtext)) with
  | some d => d
  | none => cur

/-- Time-slot loop (`app.py` lines 99-103): first `(x_start, x_end, label)`
entry with `x_start < x0 < x_end` wins; otherwise `"Unknown"`. -/
def resolveTimeSlot (x0 : Int) : List Char :=
  match time_slots.find? (fun e => decide (e.1 < x0) && decide (x0 < e.2.1)) with
  | some e => e.2.2
  | none => "Unknown".toList

/-- Course-name lookup (`app.py` lines 106-107): first catalog row whose
`Abbriviation` equals the matched code; fall back to the raw code. -/
def lookupCourseName (catalog : List CatEntry) (abbr : List Char) : List Char :=
  match catalog.find? (fun e => e.abbr == abbr) with
  | some e => e.name
  | none => abbr

/-- Build the record appended for one regex match (`app.py` lines 109-119). -/
def mkRec (catalog : List CatEntry) (day : List Char) (x0 : Int)
    (m : ClassMatch) : Rec :=
  { day := day
    time := resolveTimeSlot x0
    courseName := nlToSpace (lookupCourseName catalog m.code)
    abbr := m.code
    sec := m.sec
    session := natOfDigits m.sess
    faculty := m.fac
    venue := pyStrip m.ven
    key := m.code ++ '-' :: m.sec }

/-- One iteration of the word loop (`app.py` lines 83-119): update the
current day from the word's text, then run the regex on the word with
newlines stripped and emit at most one record. -/
def processWord (catalog : List CatEntry) (cur : List Char) (w : Word) :
    List Char × Option Rec :=
  let cur' := updateDay cur w.text
  match classSearch (stripNl w.text) with
  | some m => (cur', some (mkRec catalog cur' w.x0 m))
  | none => (cur', none)

/-- The whole word loop: thread `current_day` (initially `"Unknown"`,
`app.py` line 77) and collect the appended records in scan order. -/
def scanWords (catalog : List CatEntry) (cur : List Char) :
    List Word → List Rec
  | [] => []
  | w :: ws =>
    let s := processWord catalog cur w
    s.2.toList ++ scanWords catalog s.1 ws

/-- `day_order = [d for d in days if d in df['Day'].unique()]`
(`app.py` line 126). -/
def dayOrder (recs : List Rec) : List (List Char) :=
  days.filter (fun d => recs.any (fun r => r.day == d))

/-- Rank of a day in the restricted weekday order; a day absent from the
order (only `"Unknown"`, which `pd.Categorical` turns into `NaN`) ranks
after every present day, matching pandas' `na_position='last'`. -/
def dayRank (ord : List (List Char)) (d : List Char) : Nat :=
  ord.indexOf d

/-- Lexicographic `≤` on strings by character code, the order pandas uses on
the plain-string `Time` column. -/
def strLe : List Char → List Char → Bool
  | [], _ => true
  | _ :: _, [] => false
  | a :: as, b :: bs => a < b || (a = b && strLe as bs)

/-- The sort key order of `df.sort_values(by=['Day', 'Time'])`
(`app.py` line 128): by categorical day rank, then by the `Time` string
lexicographically. -/
def recLe (ord : List (List Char)) (r1 r2 : Rec) : Prop :=
  dayRank ord r1.day < dayRank ord r2.day ∨
    (dayRank ord r1.day = dayRank ord r2.day ∧ strLe r1.time r2.time = true)

instance (ord : List (List Char)) : DecidableRel (recLe ord) :=
  fun r1 r2 =>
    inferInstanceAs (Decidable (dayRank ord r1.day < dayRank ord r2.day ∨
      (dayRank ord r1.day = dayRank ord r2.day ∧ strLe r1.time r2.time = true)))

/-- `parse_timetable_pdf` on the flattened word sequence: scan, then
`sort_values(by=['Day', 'Time'])` with the day column made categorical over
the days actually present (`app.py` lines 121-128). -/
def parse_timetable_pdf (catalog : List CatEntry) (ws : List Word) :
    List Rec :=
  let recs := scanWords catalog ("Unknown".toList) ws
  List.insertionSort (recLe (dayOrder recs)) recs

/-- The filter stage (`app.py` line 191):
`schedule_df[schedule_df['Key'].isin(my_courses)]`. -/
def my_schedule_df (recs : List Rec) (myCourses : List (List Char)) :
    List Rec :=
  recs.filter (fun r => myCourses.any (fun k => r.key == k))

/-- The 7-entry time-slot label catalog, in table order. -/
def slotLabels : List (List Char) :=
  time_slots.map (fun e => e.2.2)

/-- Modelled from the spec: "the time slot is the label of the first entry in
the fixed ordered column-bounds table whose interval contains the word's left
x-coordinate", and `"Unknown"` when no interval contains it.  Stated via
the head of the filtered table, to be compared with the source's
`resolveTimeSlot`. -/
def firstContainingSlotSpec (x0 : Int) : List Char :=
  match (time_slots.filter
      (fun e => decide (e.1 < x0) && decide (x0 < e.2.1))).head? with
  | some e => e.2.2
  | none => "Unknown".toList

/-!
Sanity checks of the embedding, then general-purpose helper lemmas shared by
several claim theorems.
-/

-- The matcher on the code comment's own example `MFS-A(6)-AB {C - 402}`
-- (`app.py` line 16).
example :
    classSearch ("MFS-A(6)-AB {C - 402}".toList) =
      some ⟨"MFS".toList, "A".toList, "6".toList, "AB".toList,
        "C - 402".toList⟩ := by
  decide

example : classSearch ("hello world".toList) = none := by decide

-- The spec's example token has a lowercase section `Exc`, which the code's
-- `[A-Z0-9]+` section group cannot match (the code comment on line 20 even
-- names "Exc" as an example section): the pattern rejects the whole token.
example :
    classSearch ("SMMT-Exc(1)-AP/PD{Lab 3}".toList) = none := by decide

-- Pipeline sanity check: one day word then one class word.
example :
    scanWords [] ("Unknown".toList)
      [⟨40, "Mon".toList⟩, ⟨140, "MFS-A(6)-AB{C-402}".toList⟩] =
      [{ day := "Mon".toList, time := "9:30-10:45 am".toList,
         courseName := "MFS".toList, abbr := "MFS".toList,
         sec := "A".toList, session := 6, faculty := "AB".toList,
         venue := "C-402".toList, key := "MFS-A".toList }] := by
  decide

/-- `find?` returns the head of the filtered list. -/
theorem find?_eq_head?_filter {α : Type} (p : α → Bool) :
    ∀ l : List α, l.find? p = (l.filter p).head?
  | [] => rfl
  | a :: l => by
    cases h : p a with
    | true => simp [List.find?_cons_of_pos _ h, List.filter_cons, h]
    | false =>
      rw [List.find?_cons_of_neg (p := p) (a := a) l (by simp [h]),
        List.filter_cons, if_neg (by simp [h])]
      exact find?_eq_head?_filter p l

/-- `find?` on a list decomposed around its first satisfying element. -/
theorem find?_first {α : Type} (p : α → Bool) (a : α) (post : List α) :
    ∀ pre : List α, p a = true → (∀ x ∈ pre, p x = false) →
      (pre ++ a :: post).find? p = some a
  | [], ha, _ => List.find?_cons_of_pos _ ha
  | b :: pre, ha, hpre => by
    have hb : p b = false := hpre b (List.mem_cons_self b pre)
    rw [List.cons_append,
      List.find?_cons_of_neg (p := p) (a := b) _ (by simp [hb])]
    exact find?_first p a post pre ha
      (fun x hx => hpre x (List.mem_cons_of_mem b hx))

/-- `takeWhile` over a block of satisfying elements followed by a failing
element takes exactly the block. -/
theorem takeWhile_block {α : Type} (p : α → Bool) (c : α) (r : List α)
    (hc : p c = false) :
    ∀ l : List α, l.all p = true → (l ++ c :: r).takeWhile p = l
  | [], _ => by simp [List.takeWhile_cons, hc]
  | a :: l, hl => by
    have ⟨ha, hl'⟩ : p a = true ∧ l.all p = true := by
      simpa [List.all_cons] using hl
    simp [List.takeWhile_cons, ha, takeWhile_block p c r hc l hl']

/-- `dropWhile` counterpart of `takeWhile_block`. -/
theorem dropWhile_block {α : Type} (p : α → Bool) (c : α) (r : List α)
    (hc : p c = false) :
    ∀ l : List α, l.all p = true → (l ++ c :: r).dropWhile p = c :: r
  | [], _ => by simp [List.dropWhile_cons, hc]
  | a :: l, hl => by
    have ⟨ha, hl'⟩ : p a = true ∧ l.all p = true := by
      simpa [List.all_cons] using hl
    simp [List.dropWhile_cons, ha, dropWhile_block p c r hc l hl']

/-- Stripping newlines is the identity on newline-free text. -/
theorem stripNl_eq_self {s : List Char}
    (h : s.all (fun c => !(c = '\n')) = true) : stripNl s = s :=
  List.filter_eq_self.mpr (List.all_eq_true.mp h)


/-- A nonempty all-satisfying block followed by a failing character is
exactly what `munch` consumes. -/
theorem munch_block (p : Char → Bool) (c : Char) (r : List Char)
    (hc : p c = false) (l : List Char) (hne : l ≠ [])
    (hall : l.all p = true) :
    munch p (l ++ c :: r) = some (l, c :: r) := by
  unfold munch
  rw [takeWhile_block p c r hc l hall, dropWhile_block p c r hc l hall,
    if_neg (by simp [List.isEmpty_eq_true, hne])]

/-- A character satisfying a class that rejects `'\n'` is not a newline. -/
theorem all_notNl_of_all {p : Char → Bool} (hp : p '\n' = false)
    {l : List Char} (h : l.all p = true) :
    l.all (fun c => !(c = '\n')) = true := by
  rw [List.all_eq_true] at h ⊢
  intro x hx
  rcases eq_or_ne x '\n' with rfl | hne
  · rw [h '\n' hx] at hp; exact absurd hp (by simp)
  · simp [hne]

/-- `matchAt` on a literally assembled `CODE-SEC(N)-FAC{VEN}` string
recovers exactly the five constituent substrings. -/
theorem matchAt_exact
    (code sec n fac ven : List Char)
    (hc : code ≠ []) (hca : code.all isUpperAlnum = true)
    (hs : sec ≠ []) (hsa : sec.all isUpperAlnum = true)
    (hn : n ≠ []) (hna : n.all isDigitCh = true)
    (hf : fac ≠ []) (hfa : fac.all isFacultyCh = true)
    (hv : ven.all isVenueCh = true) :
    matchAt (code ++ ('-' :: (sec ++ ('(' :: (n ++ (')' :: ('-' ::
        (fac ++ ('{' :: (ven ++ ['}'])))))))))) =
      some (⟨code, sec, n, fac, ven⟩, []) := by
  have e1 := munch_block isUpperAlnum '-'
    (sec ++ ('(' :: (n ++ (')' :: ('-' :: (fac ++ ('{' :: (ven ++ ['}']))))))))
    (by decide) code hc hca
  have e2 := munch_block isUpperAlnum '('
    (n ++ (')' :: ('-' :: (fac ++ ('{' :: (ven ++ ['}']))))))
    (by decide) sec hs hsa
  have e3 := munch_block isDigitCh ')'
    ('-' :: (fac ++ ('{' :: (ven ++ ['}']))))
    (by decide) n hn hna
  have e4 := munch_block isFacultyCh '{' (ven ++ ['}']) (by decide) fac hf hfa
  have e5 : (('{' :: (ven ++ ['}'])).dropWhile isSpaceCh) =
      '{' :: (ven ++ ['}']) := by
    rw [List.dropWhile_cons, if_neg (by decide)]
  have e6 := dropWhile_block isVenueCh '}' [] (by decide) ven hv
  have e7 := takeWhile_block isVenueCh '}' [] (by decide) ven hv
  simp [matchAt, e1, e2, e3, e4, e5, e6, e7, expectCh]

/-- `re.search` succeeds with the groups of a successful anchored match at
offset 0. -/
theorem classSearch_of_matchAt {s : List Char} {m : ClassMatch}
    {r : List Char} (hs : s ≠ []) (h : matchAt s = some (m, r)) :
    classSearch s = some m := by
  cases s with
  | nil => exact absurd rfl hs
  | cons a t => simp [classSearch, h]

/-- C5: for every string of the exact form `CODE-SEC(N)-FAC{VENUE}` over the
grammar's character classes (`CODE`,`SEC` over `[A-Z0-9]+`, `N` over `\d+`,
`FAC` over `[A-Z/]+`, `VENUE` free of `}` and newlines), parsing returns
exactly one token whose fields equal the literal substrings; the emitted
record carries the venue trimmed and the faculty — even one containing `/`
such as `AP/PD` — as a single string in a single record. -/
theorem C5_valid_token_roundtrip
    (code sec n fac ven : List Char)
    (hc : code ≠ []) (hca : code.all isUpperAlnum = true)
    (hs : sec ≠ []) (hsa : sec.all isUpperAlnum = true)
    (hn : n ≠ []) (hna : n.all isDigitCh = true)
    (hf : fac ≠ []) (hfa : fac.all isFacultyCh = true)
    (hv : ven.all isVenueCh = true) :
    classSearch (code ++ ('-' :: (sec ++ ('(' :: (n ++ (')' :: ('-' ::
        (fac ++ ('{' :: (ven ++ ['}'])))))))))) =
      some ⟨code, sec, n, fac, ven⟩ ∧
    ∀ (catalog : List CatEntry) (cur : List Char) (x : Int),
      (scanWords catalog cur
          [⟨x, code ++ ('-' :: (sec ++ ('(' :: (n ++ (')' :: ('-' ::
            (fac ++ ('{' :: (ven ++ ['}'])))))))))⟩]).map
          (fun r => (r.abbr, r.sec, r.session, r.faculty, r.venue)) =
        [(code, sec, natOfDigits n, fac, pyStrip ven)] := by
  have hne : (code ++ ('-' :: (sec ++ ('(' :: (n ++ (')' :: ('-' ::
      (fac ++ ('{' :: (ven ++ ['}'])))))))))) ≠ [] :=
    fun hS => hc (List.append_eq_nil.mp hS).1
  have hsearch := classSearch_of_matchAt hne
    (matchAt_exact code sec n fac ven hc hca hs hsa hn hna hf hfa hv)
  refine ⟨hsearch, ?_⟩
  intro catalog cur x
  have c1 := all_notNl_of_all (p := isUpperAlnum) (by decide) hca
  have c2 := all_notNl_of_all (p := isUpperAlnum) (by decide) hsa
  have c3 := all_notNl_of_all (p := isDigitCh) (by decide) hna
  have c4 := all_notNl_of_all (p := isFacultyCh) (by decide) hfa
  have c5 := all_notNl_of_all (p := isVenueCh) (by decide) hv
  have hnl : (code ++ ('-' :: (sec ++ ('(' :: (n ++ (')' :: ('-' ::
      (fac ++ ('{' :: (ven ++ ['}'])))))))))).all
        (fun c => !(c = '\n')) = true := by
    simp +decide [List.all_append, List.all_cons, c1, c2, c3, c4, c5]
  simp [scanWords, processWord, stripNl_eq_self hnl, hsearch, mkRec]

/-- C5 witness at the concrete token `SMMT-A(12)-AP/PD{ Lab 3 }`. -/
theorem C5_valid_token_roundtrip_witness :
    classSearch ("SMMT-A(12)-AP/PD{ Lab 3 }".toList) =
      some ⟨"SMMT".toList, "A".toList, "12".toList, "AP/PD".toList,
        " Lab 3 ".toList⟩ ∧
    (scanWords [] ("Unknown".toList)
        [⟨140, "SMMT-A(12)-AP/PD{ Lab 3 }".toList⟩]).map
        (fun r => (r.abbr, r.sec, r.session, r.faculty, r.venue)) =
      [("SMMT".toList, "A".toList, 12, "AP/PD".toList, "Lab 3".toList)] := by
  have h := C5_valid_token_roundtrip ("SMMT".toList) ("A".toList)
    ("12".toList) ("AP/PD".toList) (" Lab 3 ".toList) (by decide) (by decide)
    (by decide) (by decide) (by decide) (by decide) (by decide) (by decide)
    (by decide)
  exact ⟨h.1, by decide⟩

/-- Inversion for `munch`: a successful munch yields a nonempty group all of
whose characters satisfy the class. -/
theorem munch_some {p : Char → Bool} {s g r : List Char}
    (h : munch p s = some (g, r)) : g ≠ [] ∧ g.all p = true := by
  unfold munch at h
  split_ifs at h with hemp
  injection h with h'
  injection h' with h1 h2
  subst h1
  exact ⟨fun heq => hemp (List.isEmpty_eq_true.mpr heq), List.all_takeWhile⟩

/-- Inversion for `matchAt`: the first four groups of a successful match are
nonempty and drawn from their character classes. -/
theorem matchAt_groups {s : List Char} {m : ClassMatch} {r : List Char}
    (h : matchAt s = some (m, r)) :
    m.code ≠ [] ∧ m.sec ≠ [] ∧ m.sess ≠ [] ∧ m.fac ≠ [] ∧
      m.sess.all isDigitCh = true := by
  unfold matchAt at h
  simp only [Option.bind_eq_bind, Option.bind_eq_some, Option.pure_def,
    Option.some.injEq, Prod.mk.injEq] at h
  obtain ⟨⟨g1, r1⟩, h1, r2, h2, ⟨g2, r3⟩, h3, r4, h4, ⟨g3, r5⟩, h5, r6, h6,
    r7, h7, ⟨g4, r8⟩, h8, r9, h9, r10, h10, hm, hr⟩ := h
  subst hm
  obtain ⟨hg1, _⟩ := munch_some h1
  obtain ⟨hg2, _⟩ := munch_some h3
  obtain ⟨hg3, hg3d⟩ := munch_some h5
  obtain ⟨hg4, _⟩ := munch_some h8
  exact ⟨hg1, hg2, hg3, hg4, hg3d⟩

/-- C6 (amended): after every successful grammar match the course code,
section, session-number and faculty groups are non-empty, and the session
group is all digits so `int(session)` parses; the venue group alone may be
empty (see the counterexample for `{}`). -/
theorem C6_nonempty_fields {s : List Char} {m : ClassMatch}
    (h : classSearch s = some m) :
    m.code ≠ [] ∧ m.sec ≠ [] ∧ m.sess ≠ [] ∧ m.fac ≠ [] ∧
      m.sess.all isDigitCh = true := by
  induction s with
  | nil => exact Option.noConfusion h
  | cons a t ih =>
    cases hma : matchAt (a :: t) with
    | none =>
      simp only [classSearch, hma] at h
      exact ih h
    | some p =>
      obtain ⟨m', r⟩ := p
      simp only [classSearch, hma, Option.some.injEq] at h
      subst h
      exact matchAt_groups hma

/-- C6 witness at the concrete token `MFS-A(6)-AB {C - 402}`. -/
theorem C6_nonempty_fields_witness :
    "MFS".toList ≠ [] ∧ "A".toList ≠ [] ∧ "6".toList ≠ [] ∧
      "AB".toList ≠ [] ∧ ("6".toList).all isDigitCh = true :=
  C6_nonempty_fields (s := "MFS-A(6)-AB {C - 402}".toList)
    (m := ⟨"MFS".toList, "A".toList, "6".toList, "AB".toList,
      "C - 402".toList⟩) (by decide)

/-- C6 counterexample: the token `MFS-A(1)-AB{}` matches successfully with an
EMPTY venue group, and the emitted record's venue is the empty string — the
claim that all five fields are non-empty after every successful match is
false. -/
theorem C6_empty_venue_counterexample :
    classSearch ("MFS-A(1)-AB{}".toList) =
      some ⟨"MFS".toList, "A".toList, "1".toList, "AB".toList, []⟩ ∧
    (scanWords [] ("Mon".toList) [⟨140, "MFS-A(1)-AB{}".toList⟩]).map
      Rec.venue = [[]] := by
  decide

/-- C7: time-slot resolution is first-containing-interval in table order —
the loop's result coincides with the spec's "first entry whose interval
contains the word's left x-coordinate" reading for every coordinate; a word
at x=140 lands in the `(130,230)` bucket `9:30-10:45 am`; a word at x=1000
lands in no bucket, resolves to `Unknown`, and is still emitted as a
record rather than dropped. -/
theorem C7_time_slot_resolution :
    (∀ x : Int, resolveTimeSlot x = firstContainingSlotSpec x) ∧
    resolveTimeSlot 140 = "9:30-10:45 am".toList ∧
    resolveTimeSlot 1000 = "Unknown".toList ∧
    (scanWords [] ("Mon".toList)
        [⟨1000, "MFS-A(6)-AB{C-402}".toList⟩]).map
        (fun r => (r.time, r.abbr)) =
      [("Unknown".toList, "MFS".toList)] := by
  refine ⟨?_, by decide, by decide, by decide⟩
  intro x
  unfold resolveTimeSlot firstContainingSlotSpec
  rw [find?_eq_head?_filter]

/-- A text none of whose suffixes matches the pattern is rejected by
`re.search`. -/
theorem classSearch_eq_none_of :
    ∀ s : List Char, (∀ i, i < s.length → matchAt (s.drop i) = none) →
      classSearch s = none
  | [], _ => rfl
  | a :: t, h => by
    have h0 : matchAt (a :: t) = none := h 0 (Nat.succ_pos _)
    have ht : classSearch t = none :=
      classSearch_eq_none_of t (fun i hi => h (i + 1) (Nat.succ_lt_succ hi))
    simp [classSearch, h0, ht]

/-- A word sequence in which no word contains a match contributes no
records, whatever the current day is. -/
theorem scan_nil_of_no_match (catalog : List CatEntry) :
    ∀ ws : List Word, (∀ w ∈ ws, classSearch (stripNl w.text) = none) →
      ∀ cur, scanWords catalog cur ws = []
  | [], _, _ => rfl
  | w :: ws, h, cur => by
    have hw := h w (List.mem_cons_self w ws)
    have hrest := scan_nil_of_no_match catalog ws
      (fun x hx => h x (List.mem_cons_of_mem w hx))
    simp [scanWords, processWord, hw, hrest]

/-- C8: a document none of whose words contains any substring matching the
token grammar parses to the empty record list (and, the functions being
total, parsing never raises). -/
theorem C8_no_match_empty_output (catalog : List CatEntry) (ws : List Word)
    (h : ∀ w ∈ ws, ∀ i, i < (stripNl w.text).length →
      matchAt ((stripNl w.text).drop i) = none) :
    parse_timetable_pdf catalog ws = [] := by
  have hnone : ∀ w ∈ ws, classSearch (stripNl w.text) = none :=
    fun w hw => classSearch_eq_none_of _ (h w hw)
  unfold parse_timetable_pdf
  rw [scan_nil_of_no_match catalog ws hnone]
  rfl

/-- C8 witness on a concrete unrelated-text document. -/
theorem C8_no_match_empty_output_witness :
    parse_timetable_pdf [] [⟨100, "hello timetable 2025".toList⟩,
      ⟨200, "Mon 21 Jul".toList⟩] = [] :=
  C8_no_match_empty_output [] [⟨100, "hello timetable 2025".toList⟩,
    ⟨200, "Mon 21 Jul".toList⟩] (by decide)

/-- C9: in the Strategy-B pipeline the course name is resolved per token at
parse time — the record is always emitted; when no catalog row's
abbreviation equals the matched code the name falls back to the raw code;
when some row matches, the FIRST matching row's course name is used; and
the filter stage never alters records (it only selects them). -/
theorem C9_course_name_resolution (catalog : List CatEntry)
    (cur : List Char) (w : Word) (m : ClassMatch)
    (hm : classSearch (stripNl w.text) = some m) :
    (processWord catalog cur w).2 =
      some (mkRec catalog (updateDay cur w.text) w.x0 m) ∧
    ((∀ e ∈ catalog, (e.abbr == m.code) = false) →
      (mkRec catalog (updateDay cur w.text) w.x0 m).courseName =
        nlToSpace m.code) ∧
    (∀ pre e post, catalog = pre ++ e :: post → (e.abbr == m.code) = true →
      (∀ e' ∈ pre, (e'.abbr == m.code) = false) →
      (mkRec catalog (updateDay cur w.text) w.x0 m).courseName =
        nlToSpace e.name) ∧
    (∀ (recs : List Rec) (sel : List (List Char)) (r : Rec),
      r ∈ my_schedule_df recs sel → r ∈ recs) := by
  refine ⟨by simp [processWord, hm], ?_, ?_, ?_⟩
  · intro h
    have hfind : catalog.find? (fun e => e.abbr == m.code) = none :=
      List.find?_eq_none.mpr (fun e he => by simp [h e he])
    simp [mkRec, lookupCourseName, hfind]
  · intro pre e post hcat he hpre
    subst hcat
    have hfind := find?_first (fun e' => e'.abbr == m.code) e post pre he hpre
    simp [mkRec, lookupCourseName, hfind]
  · intro recs sel r hr
    exact (List.mem_filter.mp hr).1

/-- C9 witness: with catalog rows XYZ and MFS, the token `MFS-A(6)-AB{C-402}`
resolves to the MFS row's course name; with an empty catalog it falls back to
the raw code; records pass the filter unaltered. -/
theorem C9_course_name_resolution_witness :
    (processWord [] ("Unknown".toList)
        ⟨140, "MFS-A(6)-AB{C-402}".toList⟩).2 =
      some (mkRec [] (updateDay ("Unknown".toList)
        ("MFS-A(6)-AB{C-402}".toList)) 140
        ⟨"MFS".toList, "A".toList, "6".toList, "AB".toList, "C-402".toList⟩) ∧
    (mkRec [] (updateDay ("Unknown".toList) ("MFS-A(6)-AB{C-402}".toList))
        140 ⟨"MFS".toList, "A".toList, "6".toList, "AB".toList,
          "C-402".toList⟩).courseName = nlToSpace ("MFS".toList) ∧
    (mkRec [⟨"XYZ".toList, "Other".toList⟩,
        ⟨"MFS".toList, "Management of Financial Services".toList⟩]
        (updateDay ("Unknown".toList) ("MFS-A(6)-AB{C-402}".toList)) 140
        ⟨"MFS".toList, "A".toList, "6".toList, "AB".toList,
          "C-402".toList⟩).courseName =
      nlToSpace ("Management of Financial Services".toList) := by
  have h0 := C9_course_name_resolution [] ("Unknown".toList)
    ⟨140, "MFS-A(6)-AB{C-402}".toList⟩
    ⟨"MFS".toList, "A".toList, "6".toList, "AB".toList, "C-402".toList⟩
    (by decide)
  have h1 := C9_course_name_resolution
    [⟨"XYZ".toList, "Other".toList⟩,
      ⟨"MFS".toList, "Management of Financial Services".toList⟩]
    ("Unknown".toList) ⟨140, "MFS-A(6)-AB{C-402}".toList⟩
    ⟨"MFS".toList, "A".toList, "6".toList, "AB".toList, "C-402".toList⟩
    (by decide)
  exact ⟨h0.1, h0.2.1 (by decide),
    h1.2.2.1 [⟨"XYZ".toList, "Other".toList⟩]
      ⟨"MFS".toList, "Management of Financial Services".toList⟩ [] rfl
      (by decide) (by decide)⟩

/-- C10: day tracking is substring-based over every word and runs before the
token match on the same word — if `d` is the first abbreviation of the fixed
Mon..Sun order contained case-insensitively in a word's text, then the word's
own emitted token is tagged with `d`, and the scan continues with current
day `d` for all subsequent words. -/
theorem C10_day_substring_update (catalog : List CatEntry) (cur : List Char)
    (w : Word) (m : ClassMatch) (d : List Char)
    (dpre dpost : List (List Char))
    (hm : classSearch (stripNl w.text) = some m)
    (hdays : days = dpre ++ d :: dpost)
    (hd : containsSub (lowerStr d) (lowerStr w.text) = true)
    (hpre : ∀ d' ∈ dpre, containsSub (lowerStr d') (lowerStr w.text) = false) :
    (processWord catalog cur w).1 = d ∧
    (processWord catalog cur w).2 = some (mkRec catalog d w.x0 m) ∧
    (mkRec catalog d w.x0 m).day = d ∧
    ∀ ws, scanWords catalog cur (w :: ws) =
      mkRec catalog d w.x0 m :: scanWords catalog d ws := by
  have hupd : updateDay cur w.text = d := by
    unfold updateDay
    rw [hdays, find?_first
      (fun dd => containsSub (lowerStr dd) (lowerStr w.text)) d dpost dpre
      hd hpre]
  refine ⟨?_, ?_, rfl, ?_⟩
  · simp [processWord, hm, hupd]
  · simp [processWord, hm, hupd]
  · intro ws
    simp [scanWords, processWord, hm, hupd]

/-- C10 witness: the token word `SUNCORP-A(1)-AB{X}` (whose course code
contains "SUN") tags itself with day `Sun` and the next token word inherits
`Sun`. -/
theorem C10_day_substring_update_witness :
    (processWord [] ("Unknown".toList)
        ⟨140, "SUNCORP-A(1)-AB{X}".toList⟩).1 = "Sun".toList ∧
    scanWords [] ("Unknown".toList)
        [⟨140, "SUNCORP-A(1)-AB{X}".toList⟩, ⟨260, "BBB-B(2)-CD{Y}".toList⟩] =
      mkRec [] ("Sun".toList) 140
          ⟨"SUNCORP".toList, "A".toList, "1".toList, "AB".toList,
            "X".toList⟩ ::
        scanWords [] ("Sun".toList) [⟨260, "BBB-B(2)-CD{Y}".toList⟩] := by
  have h := C10_day_substring_update [] ("Unknown".toList)
    ⟨140, "SUNCORP-A(1)-AB{X}".toList⟩
    ⟨"SUNCORP".toList, "A".toList, "1".toList, "AB".toList, "X".toList⟩
    ("Sun".toList)
    ["Mon".toList, "Tue".toList, "Wed".toList, "Thu".toList, "Fri".toList,
      "Sat".toList] []
    (by decide) (by decide) (by decide) (by decide)
  exact ⟨h.1, h.2.2.2 [⟨260, "BBB-B(2)-CD{Y}".toList⟩]⟩

/-- `re.search` returns the leftmost match: the offset it matches at is
preceded only by failing offsets. -/
theorem classSearch_leftmost :
    ∀ {s : List Char} {m : ClassMatch}, classSearch s = some m →
      ∃ i, (∀ j, j < i → matchAt (s.drop j) = none) ∧
        ∃ r, matchAt (s.drop i) = some (m, r)
  | [], _, h => Option.noConfusion h
  | a :: t, m, h => by
    cases hma : matchAt (a :: t) with
    | some p =>
      obtain ⟨m', r⟩ := p
      simp only [classSearch, hma, Option.some.injEq] at h
      subst h
      exact ⟨0, fun j hj => absurd hj (Nat.not_lt_zero j), r, hma⟩
    | none =>
      simp only [classSearch, hma] at h
      obtain ⟨i, hlt, r, hi⟩ := classSearch_leftmost h
      refine ⟨i + 1, fun j hj => ?_, r, hi⟩
      cases j with
      | zero => exact hma
      | succ j' => exact hlt j' (Nat.lt_of_succ_lt_succ hj)

/-- C1 (amended): per input span the parser emits exactly ONE record — the
one for the leftmost grammar match; any further disjoint matches in the same
span contribute nothing. -/
theorem C1_leftmost_match_only (catalog : List CatEntry) (cur : List Char)
    (w : Word) (m : ClassMatch)
    (hm : classSearch (stripNl w.text) = some m) :
    (processWord catalog cur w).2.toList =
      [mkRec catalog (updateDay cur w.text) w.x0 m] ∧
    ∃ i, (∀ j, j < i → matchAt ((stripNl w.text).drop j) = none) ∧
      ∃ r, matchAt ((stripNl w.text).drop i) = some (m, r) :=
  ⟨by simp [processWord, hm], classSearch_leftmost hm⟩

/-- C1 witness at the two-token span
`MFS-A(1)-AB{X}PQR-B(2)-CD{Y}`: exactly one record, for the leftmost
token. -/
theorem C1_leftmost_match_only_witness :
    (processWord [] ("Mon".toList)
        ⟨140, "MFS-A(1)-AB{X}PQR-B(2)-CD{Y}".toList⟩).2.toList =
      [mkRec [] (updateDay ("Mon".toList)
          ("MFS-A(1)-AB{X}PQR-B(2)-CD{Y}".toList)) 140
        ⟨"MFS".toList, "A".toList, "1".toList, "AB".toList, "X".toList⟩] :=
  (C1_leftmost_match_only [] ("Mon".toList)
    ⟨140, "MFS-A(1)-AB{X}PQR-B(2)-CD{Y}".toList⟩
    ⟨"MFS".toList, "A".toList, "1".toList, "AB".toList, "X".toList⟩
    (by decide)).1

/-- C1 counterexample: the single word `MFS-A(1)-AB{X}PQR-B(2)-CD{Y}`
contains two disjoint grammar matches (at offsets 0 and 14), yet the scan
emits one record, not two — the claim that one record is emitted per
contained match is false. -/
theorem C1_two_matches_one_record_counterexample :
    (matchAt ("MFS-A(1)-AB{X}PQR-B(2)-CD{Y}".toList)).isSome = true ∧
    (matchAt (("MFS-A(1)-AB{X}PQR-B(2)-CD{Y}".toList).drop 14)).isSome =
      true ∧
    (scanWords [] ("Mon".toList)
        [⟨140, "MFS-A(1)-AB{X}PQR-B(2)-CD{Y}".toList⟩]).length = 1 ∧
    ¬ (scanWords [] ("Mon".toList)
        [⟨140, "MFS-A(1)-AB{X}PQR-B(2)-CD{Y}".toList⟩]).length = 2 := by
  decide

/-- Over a prefix of words none of which contains a day abbreviation, the
current day never changes, every emitted record is tagged with it, and the
scan splits over an appended continuation. -/
theorem scan_no_marker (catalog : List CatEntry) (cur : List Char) :
    ∀ ws1 : List Word,
      (∀ w ∈ ws1, days.find?
        (fun d => containsSub (lowerStr d) (lowerStr w.text)) = none) →
      (∀ r ∈ scanWords catalog cur ws1, r.day = cur) ∧
      ∀ ws2, scanWords catalog cur (ws1 ++ ws2) =
        scanWords catalog cur ws1 ++ scanWords catalog cur ws2
  | [], _ => ⟨fun r hr => absurd hr (List.not_mem_nil r), fun _ => rfl⟩
  | w :: ws, h => by
    have hw : updateDay cur w.text = cur := by
      unfold updateDay
      rw [h w (List.mem_cons_self w ws)]
    obtain ⟨ihday, ihapp⟩ := scan_no_marker catalog cur ws
      (fun x hx => h x (List.mem_cons_of_mem w hx))
    constructor
    · intro r hr
      cases hcs : classSearch (stripNl w.text) with
      | none =>
        simp only [scanWords, processWord, hcs, hw, Option.toList_none,
          List.nil_append] at hr
        exact ihday r hr
      | some m =>
        simp only [scanWords, processWord, hcs, hw, Option.toList_some,
          List.cons_append, List.nil_append, List.mem_cons] at hr
        rcases hr with rfl | hr
        · rfl
        · exact ihday r hr
    · intro ws2
      cases hcs : classSearch (stripNl w.text) with
      | none =>
        simp only [List.cons_append, scanWords, processWord, hcs, hw,
          Option.toList_none, List.nil_append]
        exact ihapp ws2
      | some m =>
        simp only [List.cons_append, scanWords, processWord, hcs, hw,
          Option.toList_some, List.singleton_append]
        simp [List.append_eq, ihapp ws2]

/-- C2 (amended): a class token found before any day marker is NOT dropped —
it is emitted with the placeholder day `"Unknown"` and survives into the
final sorted output of `parse_timetable_pdf`. -/
theorem C2_unoriented_token_kept (catalog : List CatEntry)
    (ws1 ws2 : List Word)
    (h : ∀ w ∈ ws1, days.find?
      (fun d => containsSub (lowerStr d) (lowerStr w.text)) = none) :
    ∀ r ∈ scanWords catalog ("Unknown".toList) ws1,
      r.day = "Unknown".toList ∧
      r ∈ parse_timetable_pdf catalog (ws1 ++ ws2) := by
  obtain ⟨hday, happ⟩ := scan_no_marker catalog ("Unknown".toList) ws1 h
  intro r hr
  refine ⟨hday r hr, ?_⟩
  have hmem : r ∈ scanWords catalog ("Unknown".toList) (ws1 ++ ws2) := by
    rw [happ ws2]
    exact List.mem_append_left _ hr
  exact (List.perm_insertionSort _ _).mem_iff.mpr hmem

/-- C2 witness: a token word that precedes the first day marker (`Tue`)
yields an `"Unknown"`-day record present in the final output. -/
theorem C2_unoriented_token_kept_witness :
    (mkRec [] ("Unknown".toList) 140
        ⟨"MFS".toList, "A".toList, "1".toList, "AB".toList,
          "C402".toList⟩).day = "Unknown".toList ∧
    mkRec [] ("Unknown".toList) 140
        ⟨"MFS".toList, "A".toList, "1".toList, "AB".toList, "C402".toList⟩ ∈
      parse_timetable_pdf []
        [⟨140, "MFS-A(1)-AB{C402}".toList⟩, ⟨40, "Tue".toList⟩,
          ⟨260, "BBB-B(2)-CD{Y}".toList⟩] :=
  C2_unoriented_token_kept [] [⟨140, "MFS-A(1)-AB{C402}".toList⟩]
    [⟨40, "Tue".toList⟩, ⟨260, "BBB-B(2)-CD{Y}".toList⟩] (by decide)
    (mkRec [] ("Unknown".toList) 140
      ⟨"MFS".toList, "A".toList, "1".toList, "AB".toList, "C402".toList⟩)
    (by decide)

/-- C2 counterexample: a document whose only word is a class token with no
preceding day marker still produces one record (tagged `"Unknown"`) — the
claim that such tokens contribute no record to the output is false. -/
theorem C2_unknown_day_emitted_counterexample :
    (parse_timetable_pdf [] [⟨140, "MFS-A(1)-AB{C402}".toList⟩]).length =
      1 ∧
    (parse_timetable_pdf [] [⟨140, "MFS-A(1)-AB{C402}".toList⟩]).map
      Rec.day = ["Unknown".toList] := by
  decide

/-- Splitting at a separator is unambiguous when the left components are
separator-free. -/
theorem append_sep_inj {α : Type} (sep : α) :
    ∀ a b s t : List α, sep ∉ a → sep ∉ s →
      a ++ sep :: s = b ++ sep :: t → a = b ∧ s = t
  | [], [], s, t, _, _, h => ⟨rfl, by injection h⟩
  | [], b' :: bs, s, t, _, hs, h => by
    injection h with h1 h2
    exact absurd
      (h2 ▸ List.mem_append_right bs (List.mem_cons_self sep t)) hs
  | a' :: as, [], s, t, ha, _, h => by
    injection h with h1 h2
    exact absurd (h1 ▸ List.mem_cons_self a' as) ha
  | a' :: as, b' :: bs, s, t, ha, hs, h => by
    injection h with h1 h2
    obtain ⟨hab, hst⟩ := append_sep_inj sep as bs s t
      (fun hm => ha (List.mem_cons_of_mem a' hm)) hs h2
    exact ⟨by rw [h1, hab], hst⟩

/-- C4: for records whose stored key is `abbr ++ "-" ++ sec` with
hyphen-free abbreviation and section (the invariant of every
parser-produced record) and any selection of (code, section) pairs keyed the
same way, the filter stage is exactly the filter by pair membership: sound,
complete, and order-preserving (a sublist of the input). -/
theorem C4_filter_sound_complete (recs : List Rec)
    (sel : List (List Char × List Char))
    (hk : ∀ r ∈ recs, r.key = r.abbr ++ '-' :: r.sec)
    (hn : ∀ r ∈ recs, '-' ∉ r.abbr ∧ '-' ∉ r.sec) :
    my_schedule_df recs (sel.map (fun p => p.1 ++ '-' :: p.2)) =
      recs.filter (fun r => decide ((r.abbr, r.sec) ∈ sel)) ∧
    (∀ r ∈ my_schedule_df recs (sel.map (fun p => p.1 ++ '-' :: p.2)),
      (r.abbr, r.sec) ∈ sel) ∧
    (∀ r ∈ recs, (r.abbr, r.sec) ∈ sel →
      r ∈ my_schedule_df recs (sel.map (fun p => p.1 ++ '-' :: p.2))) ∧
    (my_schedule_df recs
      (sel.map (fun p => p.1 ++ '-' :: p.2))).Sublist recs := by
  have key : ∀ r ∈ recs,
      ((sel.map (fun p => p.1 ++ '-' :: p.2)).any (fun k => r.key == k)) =
        decide ((r.abbr, r.sec) ∈ sel) := by
    intro r hr
    obtain ⟨hna, hns⟩ := hn r hr
    rw [Bool.eq_iff_iff]
    simp only [List.any_eq_true, List.mem_map, beq_iff_eq,
      decide_eq_true_eq]
    constructor
    · rintro ⟨k, ⟨p, hp, rfl⟩, hkey⟩
      rw [hk r hr] at hkey
      obtain ⟨h1, h2⟩ := append_sep_inj '-' r.abbr p.1 r.sec p.2 hna hns
        hkey
      have hpe : (r.abbr, r.sec) = p := Prod.ext h1 h2
      exact hpe ▸ hp
    · intro hp
      exact ⟨r.key, ⟨(r.abbr, r.sec), hp, (hk r hr).symm⟩, rfl⟩
  have heq : my_schedule_df recs (sel.map (fun p => p.1 ++ '-' :: p.2)) =
      recs.filter (fun r => decide ((r.abbr, r.sec) ∈ sel)) :=
    List.filter_congr key
  refine ⟨heq, ?_, ?_, List.filter_sublist recs⟩
  · intro r hr
    rw [heq] at hr
    exact of_decide_eq_true (List.mem_filter.mp hr).2
  · intro r hr hp
    rw [heq]
    exact List.mem_filter.mpr ⟨hr, decide_eq_true hp⟩

/-- C4 witness: of two records, selecting `(MFS, A)` keeps exactly the MFS-A
record, in input order. -/
theorem C4_filter_sound_complete_witness :
    my_schedule_df
        [mkRec [] ("Mon".toList) 140
          ⟨"MFS".toList, "A".toList, "1".toList, "AB".toList, "X".toList⟩,
         mkRec [] ("Mon".toList) 260
          ⟨"PQR".toList, "B".toList, "2".toList, "CD".toList, "Y".toList⟩]
        ([(("MFS".toList, "A".toList) : List Char × List Char)].map
          (fun p => p.1 ++ '-' :: p.2)) =
      [mkRec [] ("Mon".toList) 140
          ⟨"MFS".toList, "A".toList, "1".toList, "AB".toList, "X".toList⟩,
       mkRec [] ("Mon".toList) 260
          ⟨"PQR".toList, "B".toList, "2".toList, "CD".toList,
            "Y".toList⟩].filter
        (fun r => decide ((r.abbr, r.sec) ∈
          [(("MFS".toList, "A".toList) : List Char × List Char)])) :=
  (C4_filter_sound_complete
    [mkRec [] ("Mon".toList) 140
      ⟨"MFS".toList, "A".toList, "1".toList, "AB".toList, "X".toList⟩,
     mkRec [] ("Mon".toList) 260
      ⟨"PQR".toList, "B".toList, "2".toList, "CD".toList, "Y".toList⟩]
    [(("MFS".toList, "A".toList) : List Char × List Char)]
    (by decide) (by decide)).1

/-- Totality of the lexicographic string order. -/
theorem strLe_total : ∀ a b : List Char, strLe a b = true ∨ strLe b a = true
  | [], _ => Or.inl rfl
  | _ :: _, [] => Or.inr rfl
  | a :: as, b :: bs => by
    rcases lt_trichotomy a b with h | h | h
    · exact Or.inl (by simp [strLe, h])
    · subst h
      rcases strLe_total as bs with ih | ih
      · exact Or.inl (by simp [strLe, ih])
      · exact Or.inr (by simp [strLe, ih])
    · exact Or.inr (by simp [strLe, h])

/-- Transitivity of the lexicographic string order. -/
theorem strLe_trans : ∀ a b c : List Char,
    strLe a b = true → strLe b c = true → strLe a c = true
  | [], _, _, _, _ => rfl
  | _ :: _, [], _, h1, _ => by simp [strLe] at h1
  | _ :: _, _ :: _, [], _, h2 => by simp [strLe] at h2
  | a :: as, b :: bs, c :: cs, h1, h2 => by
    simp only [strLe, Bool.or_eq_true, Bool.and_eq_true,
      decide_eq_true_eq] at h1 h2 ⊢
    rcases h1 with h1 | ⟨he1, h1⟩
    · rcases h2 with h2 | ⟨he2, h2⟩
      · exact Or.inl (lt_trans h1 h2)
      · exact Or.inl (by rw [← he2]; exact h1)
    · rcases h2 with h2 | ⟨he2, h2⟩
      · exact Or.inl (by rw [he1]; exact h2)
      · exact Or.inr ⟨he1.trans he2, strLe_trans as bs cs h1 h2⟩

instance instIsTotalRecLe (ord : List (List Char)) :
    IsTotal Rec (recLe ord) where
  total r1 r2 := by
    rcases Nat.lt_trichotomy (dayRank ord r1.day) (dayRank ord r2.day) with
      h | h | h
    · exact Or.inl (Or.inl h)
    · rcases strLe_total r1.time r2.time with ht | ht
      · exact Or.inl (Or.inr ⟨h, ht⟩)
      · exact Or.inr (Or.inr ⟨h.symm, ht⟩)
    · exact Or.inr (Or.inl h)

instance instIsTransRecLe (ord : List (List Char)) :
    IsTrans Rec (recLe ord) where
  trans a b c h1 h2 := by
    rcases h1 with h1 | ⟨e1, t1⟩ <;> rcases h2 with h2 | ⟨e2, t2⟩
    · exact Or.inl (lt_trans h1 h2)
    · exact Or.inl (by rw [← e2]; exact h1)
    · exact Or.inl (by rw [e1]; exact h2)
    · exact Or.inr ⟨e1.trans e2, strLe_trans _ _ _ t1 t2⟩

/-- C3 (amended): the Strategy-B post-pass STABLY sorts the emitted
sequence: the output is a permutation of the scan output, sorted primarily
by day in the fixed Mon→Sun order restricted to the days actually present
(records with an unrecognized day rank last), and secondarily by the `Time`
label as a plain string in lexicographic order — not in the order of the
slot-label catalog.  Stability: every subsequence of the scan output whose
records are already in key order survives as a subsequence of the sorted
output, so in particular records with equal (day, time) keys keep their
scan order. -/
theorem C3_sorted_day_then_time_lex (catalog : List CatEntry)
    (ws : List Word) :
    (parse_timetable_pdf catalog ws).Perm
      (scanWords catalog ("Unknown".toList) ws) ∧
    (parse_timetable_pdf catalog ws).Sorted
      (recLe (dayOrder (scanWords catalog ("Unknown".toList) ws))) ∧
    ∀ c : List Rec,
      c.Pairwise (recLe (dayOrder (scanWords catalog ("Unknown".toList) ws))) →
      c.Sublist (scanWords catalog ("Unknown".toList) ws) →
      c.Sublist (parse_timetable_pdf catalog ws) :=
  ⟨List.perm_insertionSort _ _, List.sorted_insertionSort _ _,
    fun _ hp hs => List.sublist_insertionSort hp hs⟩

/-- C3 witness: two records tied on their sort key — both on `Mon`, both in
the `9:30-10:45 am` bucket — keep their scan order in the sorted output. -/
theorem C3_sorted_day_then_time_lex_witness :
    List.Sublist
      [mkRec [] ("Mon".toList) 140
        ⟨"AAA".toList, "A".toList, "1".toList, "AB".toList, "X".toList⟩,
       mkRec [] ("Mon".toList) 150
        ⟨"BBB".toList, "B".toList, "2".toList, "CD".toList, "Y".toList⟩]
      (parse_timetable_pdf []
        [⟨40, "Mon".toList⟩, ⟨140, "AAA-A(1)-AB{X}".toList⟩,
         ⟨150, "BBB-B(2)-CD{Y}".toList⟩]) :=
  (C3_sorted_day_then_time_lex []
    [⟨40, "Mon".toList⟩, ⟨140, "AAA-A(1)-AB{X}".toList⟩,
     ⟨150, "BBB-B(2)-CD{Y}".toList⟩]).2.2
    [mkRec [] ("Mon".toList) 140
      ⟨"AAA".toList, "A".toList, "1".toList, "AB".toList, "X".toList⟩,
     mkRec [] ("Mon".toList) 150
      ⟨"BBB".toList, "B".toList, "2".toList, "CD".toList, "Y".toList⟩]
    (by decide) (by decide)

/-- C3 counterexample: two same-day records with times `11:00 am-12:15 pm`
(x=260) and `9:30-10:45 am` (x=140) come out in lexical string order — the
`11:00` slot first — although the catalog order puts the `9:30` slot first;
the claimed catalog-order secondary sort is false. -/
theorem C3_lexical_time_counterexample :
    (parse_timetable_pdf []
        [⟨40, "Mon".toList⟩, ⟨260, "AAA-A(1)-AB{X}".toList⟩,
         ⟨140, "BBB-B(1)-CD{Y}".toList⟩]).map (fun r => (r.day, r.time)) =
      [("Mon".toList, "11:00 am-12:15 pm".toList),
       ("Mon".toList, "9:30-10:45 am".toList)] ∧
    slotLabels.indexOf ("9:30-10:45 am".toList) <
      slotLabels.indexOf ("11:00 am-12:15 pm".toList) := by
  decide
